import Mathlib

/-
Verification of the f4pga flow core (src/f4pga/flows/common.py and
src/f4pga/flows/modules/yosys.py) against its natural-language specification.

Strings are embedded as `List Char`.  Python dictionaries are embedded as
association lists in insertion order, with `insertA` modelling Python's
`d[k] = v` (replace in place when the key exists, append otherwise) and
`updateA` modelling `dict.update`.  Fallible Python code (exceptions,
`exit`) is embedded with `Option`/`Except`.
-/

set_option maxRecDepth 8192

namespace F4PGA

/-- Python strings, embedded as lists of characters. -/
abbrev Str := List Char

/-! ## Dependency qualifiers (common.py, lines 46-64) -/

/--
Embedding of `decompose_depname` (common.py lines 46-55).  The Python code
reads `name[len(name) - 1]`, which raises `IndexError` on the empty string;
this partiality is modelled by returning `none` for the empty name.  The
qualifier is one of the strings `"req"`, `"maybe"`, `"demand"`, exactly as
in the source.
-/
def decompose_depname (name : Str) : Option (Str × String) :=
  match name.getLast? with
  | none => none
  | some c =>
    if c = '?' then some (name.dropLast, "maybe")
    else if c = '!' then some (name.dropLast, "demand")
    else some (name, "req")

/--
Embedding of `with_qualifier` (common.py lines 58-64).  The Python function
returns `decompose_depname(name)[0]` with the marker for `q` appended and
falls off the end (returning `None`) for an unrecognised qualifier; an
`IndexError` from `decompose_depname` on the empty name propagates.  Both
the implicit `None` and the propagated exception are modelled as `none`.
-/
def with_qualifier (name : Str) (q : String) : Option Str :=
  if q = "req" then (decompose_depname name).map (fun p => p.1)
  else if q = "maybe" then (decompose_depname name).map (fun p => p.1 ++ ['?'])
  else if q = "demand" then (decompose_depname name).map (fun p => p.1 ++ ['!'])
  else none

/-- Decompose-then-recompose round trip on the base, as claim C1 words it. -/
def qualifierRoundTrip (name : Str) : Option Str :=
  (decompose_depname name).bind (fun p => with_qualifier p.1 p.2)

/-! ## Values and the resolution environment (common.py, lines 146-205) -/

/--
A Python value held by a `ResolutionEnv`: a string, a list of values, or a
dict from strings to values (in insertion order).
-/
inductive Value where
  | str : Str → Value
  | list : List Value → Value
  | dict : List (Str × Value) → Value

/-- Whether a value is a Python dict, as `isinstance(v, dict)` tests. -/
def Value.isDict : Value → Bool
  | .dict _ => true
  | _ => false

/--
Python truthiness test `not v` restricted to the value shapes above:
empty strings, lists and dicts are falsy.
-/
def falsy : Value → Bool
  | .str s => s.isEmpty
  | .list l => l.isEmpty
  | .dict d => d.isEmpty

/-- The `values` store of a `ResolutionEnv`, a dict in insertion order. -/
abbrev Env := List (Str × Value)

/-- Python `d.get(k)` / `d[k]` lookup on an insertion-ordered dict. -/
def lookupA {α : Type} (k : Str) : List (Str × α) → Option α
  | [] => none
  | kv :: rest => if kv.1 = k then some kv.2 else lookupA k rest

/--
Python `d[k] = v`: replace the value in place when the key is present,
append the pair otherwise.
-/
def insertA {α : Type} : List (Str × α) → Str → α → List (Str × α)
  | [], k, v => [(k, v)]
  | kv :: rest, k, v =>
    if kv.1 = k then (kv.1, v) :: rest else kv :: insertA rest k v

/-- Python `d.update(nd)`: insert every pair of `nd`, in order, into `d`. -/
def updateA {α : Type} (d nd : List (Str × α)) : List (Str × α) :=
  nd.foldl (fun acc kv => insertA acc kv.1 kv.2) d

/-- Characters with a special meaning in the pattern regex: `$`, `{`, `}`. -/
def isSpecial (c : Char) : Bool := c = '$' || c = '{' || c = '}'

/--
One attempted match of the regex pattern at the head of the string: a
dollar sign, an opening brace, a greedy run of non-special characters (the
group), and a closing brace.
-/
def tryMatchAt (s : Str) : Option Str :=
  match s with
  | c1 :: c2 :: rest =>
    if c1 = '$' then
      if c2 = '{' then
        let g := rest.takeWhile (fun c => !isSpecial c)
        match rest.drop g.length with
        | c3 :: _ => if c3 = '}' then some g else none
        | [] => none
      else none
    else none
  | _ => none

/--
Left-to-right scan for all matches of the regex pattern, as
`re.finditer("\x5c$\x5c\x7b([^$\x7b\x7d]*)\x5c\x7d", s)` produces them
(common.py line 172).  Each entry is `(span start, span end, group 1)`.  A
successful match contains no dollar sign after its first character, so no
further match can begin inside it and advancing one character at a time
enumerates exactly the non-overlapping matches `finditer` finds.
-/
def scanAux : Str → Nat → List (Nat × Nat × Str)
  | [], _ => []
  | c :: rest, i =>
    match tryMatchAt (c :: rest) with
    | some g => (i, i + g.length + 3, g) :: scanAux rest (i + 1)
    | none => scanAux rest (i + 1)

/-- All regex matches of the placeholder pattern in `s`, left to right. -/
def findMatches (s : Str) : List (Nat × Nat × Str) := scanAux s 0

/--
The lookup key of a matched group: `match_str.replace("?", "")`
(common.py line 177) removes every question mark from the group.
-/
def lookupKey (g : Str) : Str := g.filter (fun c => c != '?')

/-- The splice `s[: span[0]] + v + s[span[1] :]` (common.py lines 186-188). -/
def splice (s : Str) (a b : Nat) (w : Str) : Str := s.take a ++ w ++ s.drop b

/--
String concatenation with a non-string element of a bound list raises
`TypeError` in Python (the code assumes a list of strings, common.py
line 187); the exception is modelled as `Except.error`.
-/
def strOnly : Value → Except Unit Str
  | .str w => .ok w
  | _ => .error ()

/--
The elements of a bound list, each required to be a string; the first
non-string element raises, as in the comprehension on common.py line 188.
-/
def strOnlyAll : List Value → Except Unit (List Str)
  | [] => .ok []
  | v :: vs => do
    let w ← strOnly v
    let ws ← strOnlyAll vs
    return w :: ws

/--
One iteration of the loop over the reversed match list in
`ResolutionEnv.resolve` (common.py lines 175-189).  The state is the local
variable `s`, still a string or already turned into a list by an earlier
list-valued substitution; Python `TypeError`s (splicing into a list, or a
bound list holding a non-string) are modelled as `Except.error`.  A name
bound to a non-empty dict matches neither `type(v) is str` nor
`type(v) is list`, so it leaves the state untouched.
-/
def resolveMatch (env : Env) (final : Bool) (st : Except Unit Value)
    (m : Nat × Nat × Str) : Except Unit Value :=
  match st with
  | .error e => .error e
  | .ok sv =>
    let vOpt : Option Value :=
      match lookupA (lookupKey m.2.2) env with
      | none => if final then some (.str []) else none
      | some w => if falsy w then (if final then some (.str []) else none) else some w
    match vOpt with
    | none => .ok sv
    | some (.str w) =>
      match sv with
      | .str sc => .ok (.str (splice sc m.1 m.2.1 w))
      | _ => .error ()
    | some (.list vs) =>
      match sv with
      | .str sc =>
        (strOnlyAll vs).map
          (fun ws => Value.list (ws.map (fun w => Value.str (splice sc m.1 m.2.1 w))))
      | _ => .error ()
    | some (.dict _) => .ok sv

/--
The string branch of `ResolutionEnv.resolve` (common.py lines 171-189):
find all matches, reverse them, and process each one against the
environment.
-/
def resolveStr (env : Env) (final : Bool) (s : Str) : Except Unit Value :=
  (findMatches s).reverse.foldl (resolveMatch env final) (.ok (.str s))

mutual

/--
Embedding of `ResolutionEnv.resolve` (common.py lines 163-195).  The list
and dict branches call `self.resolve` through `map` and a comprehension
with a single argument, so the recursive calls run with the default
`final=False` whatever the outer `final` was.
-/
def resolve (env : Env) (final : Bool) : Value → Except Unit Value
  | .str s => resolveStr env final s
  | .list l => (resolveList env l).map Value.list
  | .dict d => (resolveDict env d).map Value.dict

/-- Elementwise resolution of a list, `list(map(self.resolve, s))`. -/
def resolveList (env : Env) : List Value → Except Unit (List Value)
  | [] => .ok []
  | v :: vs => do
    let rv ← resolve env false v
    let rvs ← resolveList env vs
    return rv :: rvs

/-- Valuewise resolution of a dict, `dict([(k, self.resolve(v)) ...])`. -/
def resolveDict (env : Env) : List (Str × Value) → Except Unit (List (Str × Value))
  | [] => .ok []
  | kv :: rest => do
    let rv ← resolve env false kv.2
    let rrest ← resolveDict env rest
    return (kv.1, rv) :: rrest

end

/--
Embedding of `ResolutionEnv.add_values` (common.py lines 197-205).  Each
incoming pair is resolved against the current store; when the key is
already bound to a dict and the resolved value is a dict, the stored dict
is merged one level deep with `dict.update`, otherwise the key is
reassigned.  A stored dict updated with a non-dict value is modelled as an
error (Python's `dict.update` raises for the scalar strings that occur
here; exotic iterable-of-pairs arguments are outside the modelled scope).
-/
def add_values (env : Env) (values : Env) : Except Unit Env :=
  values.foldl
    (fun acc kv =>
      match acc with
      | .error e => .error e
      | .ok e =>
        match resolve e false kv.2 with
        | .error e2 => .error e2
        | .ok rv =>
          match lookupA kv.1 e with
          | some (.dict d) =>
            match rv with
            | .dict nd => .ok (insertA e kv.1 (.dict (updateA d nd)))
            | _ => .error ()
          | _ => .ok (insertA e kv.1 rv))
    (.ok env)

/-! ## Object identity of the default store (common.py, lines 157-158) -/

/--
A heap of `ResolutionEnv` stores.  Python allocates the default argument
object of `def __init__(self, values={})` once, when the function is
defined; `defaultValuesRef` is the reference to that shared dict.
-/
abbrev Heap := List Env

/-- The reference to the dict allocated for the `values={}` default. -/
def defaultValuesRef : Nat := 0

/-- The heap as it stands after the class definition: only the (still
empty) default dict exists. -/
def initialHeap : Heap := [[]]

/-- Read the store an environment references. -/
def heapGet (h : Heap) (r : Nat) : Env := h.getD r []

/-- Overwrite the store an environment references. -/
def heapSet (h : Heap) (r : Nat) (e : Env) : Heap := h.set r e

/--
Embedding of `ResolutionEnv.__init__` (common.py lines 157-158).  The
constructed object holds a reference to the dict it was given; a call
without an argument binds `self.values` to the one shared default dict.
-/
def renvInit (h : Heap) (arg : Option Nat) : Nat × Heap :=
  match arg with
  | some r => (r, h)
  | none => (defaultValuesRef, h)

/-- `add_values` called on an environment holding reference `r`: the
referenced store is mutated in place. -/
def renvAddValues (h : Heap) (r : Nat) (values : Env) : Except Unit Heap :=
  (add_values (heapGet h r) values).map (heapSet h r)

/-- `resolve` called on an environment holding reference `r`. -/
def renvResolve (h : Heap) (r : Nat) (final : Bool) (v : Value) :
    Except Unit Value :=
  resolve (heapGet h r) final v

/-! ## Process execution wrapper (common.py, lines 102-114) -/

/-- The observable outcome of the child process: exit code and captured
output streams. -/
structure CompletedProcess where
  returncode : Int
  stdout : Str
  stderr : Str

/-- The observable behaviour of one call to `sub`: the messages printed,
the value returned to the caller (if any), and the exit code passed to
`exit` (if called). -/
structure SubResult where
  printed : List Str
  returned : Option Str
  exited : Option Int

/--
Embedding of `sub` (common.py lines 102-114) as a function of the child
process outcome.  On a non-zero return code it prints an error line naming
`args[0]`, prints the captured stdout only under the
`print_stdout_on_fail` flag, always prints the captured stderr, and calls
`exit(out.returncode)`; on a zero return code it returns the captured
stdout and prints nothing.
-/
def sub (args : List Str) (print_stdout_on_fail : Bool)
    (out : CompletedProcess) : SubResult :=
  if out.returncode ≠ 0 then
    { printed :=
        ["[ERROR]: ".toList ++ args.headD [] ++ " non-zero return code.\n".toList] ++
        (if print_stdout_on_fail then
          ["stdout:\n".toList ++ out.stdout ++ "\n\n".toList] else []) ++
        ["stderr:\n".toList ++ out.stderr ++ "\n\n".toList],
      returned := none,
      exited := some out.returncode }
  else { printed := [], returned := some out.stdout, exited := none }

/-! ## The yosys module's path mapping (yosys.py, lines 29-52) -/

/--
Errors observable from `YosysModule.map_io`.  `nameError` models a Python
`NameError`: the identifier has no binding in the module at the point it
is evaluated.  `indexError` models the `IndexError` that
`decompose_depname` raises on an empty name.
-/
inductive YosysError where
  | nameError (missing : String)
  | indexError
deriving DecidableEq

/--
The fields of the module context that `map_io` reads:
`ctx.takes.build_dir`, `ctx.values.top` and `ctx.values.device`.
-/
structure ModuleContext where
  build_dir : Option Str
  top : Str
  device : Str

/--
The pathlib `/` operator for a relative right operand, on normalised
relative paths: joining onto the current-directory path `"."` yields the
right operand itself.
-/
def pathJoin (a b : Str) : Str := if a = ['.'] then b else a ++ '/' :: b

/--
The pathlib `parent` property on normalised relative paths: everything
before the last slash, or `"."` when there is no slash.
-/
def pathParent (p : Str) : Str :=
  if p.contains '/' then ((p.reverse.dropWhile (fun c => c != '/')).drop 1).reverse
  else ['.']

/--
The local variable `top` of `map_io` (yosys.py line 33):
`Path(ctx.takes.build_dir) / ctx.values.top` when `build_dir` is truthy,
else `Path(ctx.values.top)`.
-/
def topPath (ctx : ModuleContext) : Str :=
  match ctx.build_dir with
  | some bd => if bd.isEmpty then ctx.top else pathJoin bd ctx.top
  | none => ctx.top

/--
Embedding of `YosysModule.map_io` (yosys.py lines 32-52).  The four fixed
products map to paths derived from `top`; each extra product is
decomposed, a `"maybe"` qualifier reaches
`raise ModuleRuntimeException(...)` — but that identifier is never
imported in yosys.py, and Python evaluates the callee before its
argument, so what is actually raised is a `NameError` — a `"req"`
qualifier adds a device-prefixed path next to `top`, and a `"demand"`
qualifier matches no branch and is silently skipped.
-/
def map_io (ctx : ModuleContext) (extra_products : List Str) :
    Except YosysError (List (Str × Str)) :=
  let top := topPath ctx
  let base : List (Str × Str) :=
    [("eblif".toList, top ++ ".eblif".toList),
     ("fasm_extra".toList, top ++ "_fasm_extra.fasm".toList),
     ("json".toList, top ++ ".json".toList),
     ("synth_json".toList, top ++ "_io.json".toList)]
  extra_products.foldl
    (fun acc extra =>
      match acc with
      | .error e => .error e
      | .ok mapping =>
        match decompose_depname extra with
        | none => .error .indexError
        | some (name, spec) =>
          if spec = "maybe" then .error (.nameError "ModuleRuntimeException")
          else if spec = "req" then
            .ok (insertA mapping name
              (pathJoin (pathParent top)
                (ctx.device ++ '_' :: name ++ '.' :: name)))
          else .ok mapping)
    (.ok base)

/-! ## Helper functions used only to state expected results -/

/--
The expected result of final resolution when no placeholder can be
substituted: each matched span, taken right to left, is replaced by the
empty string.
-/
def eraseSpans (s : Str) (ms : List (Nat × Nat × Str)) : Str :=
  ms.foldl (fun acc m => splice acc m.1 m.2.1 []) s

/-- Remove every binding of key `k` from a store. -/
def eraseKeyA (k : Str) (env : Env) : Env := env.filter (fun kv => kv.1 != k)

/-! ## General lemmas -/

theorem dropLast_append_getLast_of_getLast?_eq {l : List Char} {c : Char}
    (h : l.getLast? = some c) : l.dropLast ++ [c] = l := by
  cases l with
  | nil => simp at h
  | cons a t =>
    have hne : a :: t ≠ ([] : List Char) := by simp
    have hgl : (a :: t).getLast hne = c := by
      have := List.getLast?_eq_getLast (a :: t) hne
      rw [this] at h
      exact (Option.some_injective _ h)
    rw [← hgl]
    exact List.dropLast_append_getLast hne

theorem wq_req (name : Str) :
    with_qualifier name "req" = (decompose_depname name).map (fun p => p.1) := by
  simp [with_qualifier]

theorem wq_maybe (name : Str) :
    with_qualifier name "maybe" = (decompose_depname name).map (fun p => p.1 ++ ['?']) := by
  simp [with_qualifier]

theorem wq_demand (name : Str) :
    with_qualifier name "demand" = (decompose_depname name).map (fun p => p.1 ++ ['!']) := by
  simp [with_qualifier]

theorem decompose_cases (name base : Str) (q : String)
    (h : decompose_depname name = some (base, q)) :
    (q = "req" ∧ base = name) ∨
    (q = "maybe" ∧ name.getLast? = some '?' ∧ base = name.dropLast) ∨
    (q = "demand" ∧ name.getLast? = some '!' ∧ base = name.dropLast) := by
  cases hl : name.getLast? with
  | none => simp [decompose_depname, hl] at h
  | some c =>
    simp only [decompose_depname, hl] at h
    by_cases h? : c = '?'
    · subst h?
      simp only [eq_self_iff_true, if_true, Option.some.injEq, Prod.mk.injEq] at h
      exact Or.inr (Or.inl ⟨h.2.symm, rfl, h.1.symm⟩)
    · by_cases h! : c = '!'
      · subst h!
        simp only [if_neg h?, eq_self_iff_true, if_true, Option.some.injEq,
          Prod.mk.injEq] at h
        exact Or.inr (Or.inr ⟨h.2.symm, rfl, h.1.symm⟩)
      · simp only [if_neg h?, if_neg h!, Option.some.injEq, Prod.mk.injEq] at h
        exact Or.inl ⟨h.2.symm, h.1.symm⟩

/-! ## C1: qualifier decomposition and recomposition -/

/--
C1 counterexample: for the dependency name `"clk??"`, decomposing and then
recomposing the resulting base with the resulting qualifier yields `"clk?"`,
not the original name, so `decompose_depname` and `with_qualifier` are not
mutual inverses on all names.
-/
theorem c1_roundtrip_counterexample :
    qualifierRoundTrip "clk??".toList = some "clk?".toList ∧
    "clk?".toList ≠ "clk??".toList := by
  constructor
  · rfl
  · decide

/--
C1 (amended): recomposing the original name with the qualifier produced by
decomposition always yields the original name back; recomposing the
decomposed base with that qualifier yields the original name whenever the
base does not itself end in a qualifier marker (i.e. the base decomposes
with qualifier `"req"`).  Moreover `decompose_depname` sends `"clk"`,
`"clk?"` and `"clk!"` to the bases and qualifiers the spec lists
(`"req"`, `"maybe"` and `"demand"` encode required, optional, demanded).
-/
theorem c1_decompose_with_qualifier :
    (∀ (name base : Str) (q : String),
      decompose_depname name = some (base, q) →
      with_qualifier name q = some name) ∧
    (∀ (name base : Str) (q : String),
      decompose_depname name = some (base, q) →
      decompose_depname base = some (base, "req") →
      with_qualifier base q = some name) ∧
    decompose_depname "clk".toList = some ("clk".toList, "req") ∧
    decompose_depname "clk?".toList = some ("clk?".toList.dropLast, "maybe") ∧
    decompose_depname "clk!".toList = some ("clk!".toList.dropLast, "demand") := by
  refine ⟨?_, ?_, rfl, rfl, rfl⟩
  · intro name base q h
    rcases decompose_cases name base q h with ⟨hq, hb⟩ | ⟨hq, hl, hb⟩ | ⟨hq, hl, hb⟩ <;>
      subst hq <;> subst hb
    · rw [wq_req, h, Option.map_some']
    · rw [wq_maybe, h, Option.map_some']
      exact congrArg some (dropLast_append_getLast_of_getLast?_eq hl)
    · rw [wq_demand, h, Option.map_some']
      exact congrArg some (dropLast_append_getLast_of_getLast?_eq hl)
  · intro name base q h hbase
    rcases decompose_cases name base q h with ⟨hq, hb⟩ | ⟨hq, hl, hb⟩ | ⟨hq, hl, hb⟩ <;>
      subst hq <;> subst hb
    · rw [wq_req, h, Option.map_some']
    · rw [wq_maybe, hbase, Option.map_some']
      exact congrArg some (dropLast_append_getLast_of_getLast?_eq hl)
    · rw [wq_demand, hbase, Option.map_some']
      exact congrArg some (dropLast_append_getLast_of_getLast?_eq hl)

/--
C1 witness: the amended round-trip laws instantiated at the concrete name
`"clk?"` (base `"clk"`, qualifier `"maybe"`).
-/
theorem c1_witness :
    with_qualifier "clk?".toList "maybe" = some "clk?".toList ∧
    with_qualifier "clk".toList "maybe" = some "clk?".toList :=
  ⟨c1_decompose_with_qualifier.1 "clk?".toList "clk".toList "maybe" rfl,
   c1_decompose_with_qualifier.2.1 "clk?".toList "clk".toList "maybe" rfl rfl⟩

/-! ## Lemmas about one match step of the resolver -/

theorem resolveMatch_none (env : Env) (sv : Value) (m : Nat × Nat × Str)
    (h : lookupA (lookupKey m.2.2) env = none) :
    resolveMatch env false (.ok sv) m = .ok sv := by
  simp [resolveMatch, h]

theorem resolveMatch_none_final (env : Env) (sc : Str) (m : Nat × Nat × Str)
    (h : lookupA (lookupKey m.2.2) env = none) :
    resolveMatch env true (.ok (.str sc)) m = .ok (.str (splice sc m.1 m.2.1 [])) := by
  simp [resolveMatch, h]

theorem foldl_resolveMatch_unbound (env : Env) (ms : List (Nat × Nat × Str)) :
    ∀ s : Str, (∀ m ∈ ms, lookupA (lookupKey m.2.2) env = none) →
    ms.foldl (resolveMatch env false) (.ok (.str s)) = .ok (.str s) := by
  induction ms with
  | nil => intro s _; rfl
  | cons m rest ih =>
    intro s h
    rw [List.foldl_cons, resolveMatch_none env _ m (h m (by simp))]
    exact ih s (fun m2 hm2 => h m2 (by simp [hm2]))

theorem foldl_resolveMatch_unbound_final (env : Env) (ms : List (Nat × Nat × Str)) :
    ∀ s : Str, (∀ m ∈ ms, lookupA (lookupKey m.2.2) env = none) →
    ms.foldl (resolveMatch env true) (.ok (.str s)) = .ok (.str (eraseSpans s ms)) := by
  induction ms with
  | nil => intro s _; rfl
  | cons m rest ih =>
    intro s h
    rw [List.foldl_cons, resolveMatch_none_final env s m (h m (by simp))]
    rw [ih _ (fun m2 hm2 => h m2 (by simp [hm2]))]
    rfl

/-! ## C3: unbound placeholders -/

/--
C3: for a scalar string all of whose placeholder lookup keys are unbound
in the environment, `resolve` with `final=false` returns the string
unchanged, and `resolve` with `final=true` replaces every matched
placeholder span, right to left, by the empty string.
-/
theorem c3_unbound_placeholder (env : Env) (s : Str)
    (h : ∀ m ∈ findMatches s, lookupA (lookupKey m.2.2) env = none) :
    resolve env false (.str s) = .ok (.str s) ∧
    resolve env true (.str s) = .ok (.str (eraseSpans s (findMatches s).reverse)) := by
  constructor
  · show resolveStr env false s = _
    exact foldl_resolveMatch_unbound env _ s (fun m hm => h m (List.mem_reverse.mp hm))
  · show resolveStr env true s = _
    exact foldl_resolveMatch_unbound_final env _ s (fun m hm => h m (List.mem_reverse.mp hm))

/--
C3 witness: the spec's example — `resolve("a${b}c", {})` is unchanged with
`final=false` and becomes `"ac"` with `final=true`.
-/
theorem c3_witness :
    resolve [] false (.str "a${b}c".toList) = .ok (.str "a${b}c".toList) ∧
    resolve [] true (.str "a${b}c".toList) = .ok (.str "ac".toList) :=
  ⟨(c3_unbound_placeholder [] _ (fun _ _ => rfl)).1,
   (c3_unbound_placeholder [] _ (fun _ _ => rfl)).2.trans rfl⟩

/-! ## C4: expansion of a sequence-valued placeholder -/

theorem strOnlyAll_map (strs : List Str) :
    strOnlyAll (strs.map Value.str) = .ok strs := by
  induction strs with
  | nil => rfl
  | cons w rest ih => simp [strOnlyAll, strOnly, ih]; rfl

/--
C4 counterexample: a name bound to the empty sequence is falsy and treated
as unbound, so `resolve("a${b}c", {b: []})` returns the untouched scalar
string, not a sequence of zero scalars as the claim (instantiated at
`N = 0`) asserts.
-/
theorem c4_empty_sequence_counterexample :
    resolve [("b".toList, Value.list [])] false (.str "a${b}c".toList) =
      .ok (.str "a${b}c".toList) ∧
    (Except.ok (Value.str "a${b}c".toList) : Except Unit Value) ≠
      Except.ok (Value.list []) := by
  refine ⟨rfl, ?_⟩
  intro h
  injection h with h2
  exact Value.noConfusion h2

/--
C4 (amended): for a scalar string with exactly one placeholder whose
lookup key is bound to a non-empty sequence of `N ≥ 1` strings, `resolve`
returns the sequence of `N` scalars obtained by splicing each element into
the placeholder's span (an empty bound sequence is falsy and treated as
unbound instead).
-/
theorem c4_sequence_expansion (env : Env) (final : Bool) (s : Str)
    (a b : Nat) (g : Str) (strs : List Str)
    (hm : findMatches s = [(a, b, g)])
    (hl : lookupA (lookupKey g) env = some (.list (strs.map Value.str)))
    (hne : strs ≠ []) :
    resolve env final (.str s) =
      .ok (.list (strs.map (fun w => Value.str (splice s a b w)))) := by
  show resolveStr env final s = _
  unfold resolveStr
  rw [hm]
  have hfalsy : falsy (Value.list (strs.map Value.str)) = false := by
    cases strs with
    | nil => exact absurd rfl hne
    | cons w ws => rfl
  simp [resolveMatch, hl, hfalsy, strOnlyAll_map]
  rfl

/--
C4 witness: the spec's example —
`resolve("a${b}c", {b: ["X","Y"]}) = ["aXc", "aYc"]`.
-/
theorem c4_witness :
    resolve [("b".toList, Value.list [.str "X".toList, .str "Y".toList])] false
      (.str "a${b}c".toList) =
    .ok (.list [.str "aXc".toList, .str "aYc".toList]) :=
  (c4_sequence_expansion
    [("b".toList, Value.list [.str "X".toList, .str "Y".toList])]
    false "a${b}c".toList 1 5 "b".toList ["X".toList, "Y".toList]
    rfl rfl (by simp)).trans rfl

/-! ## C10: falsy bindings are treated as unbound -/

theorem lookupA_eraseKeyA (k k2 : Str) (env : Env) :
    lookupA k2 (eraseKeyA k env) = if k2 = k then none else lookupA k2 env := by
  induction env with
  | nil => simp [eraseKeyA, lookupA]
  | cons kv rest ih =>
    by_cases hk : kv.1 = k
    · have he : eraseKeyA k (kv :: rest) = eraseKeyA k rest := by
        simp [eraseKeyA, List.filter_cons, hk]
      rw [he, ih]
      by_cases h2 : k2 = k
      · simp [h2]
      · have hne : kv.1 ≠ k2 := by rw [hk]; exact fun hh => h2 hh.symm
        simp [h2, lookupA, hne]
    · have he : eraseKeyA k (kv :: rest) = kv :: eraseKeyA k rest := by
        simp [eraseKeyA, List.filter_cons, hk]
      rw [he]
      by_cases hkv : kv.1 = k2
      · have h2 : k2 ≠ k := fun hh => hk (hkv.trans hh)
        simp [lookupA, hkv, h2]
      · simp [lookupA, hkv, ih]

theorem resolveMatch_erase_falsy (env : Env) (k : Str) (v : Value) (final : Bool)
    (st : Except Unit Value) (m : Nat × Nat × Str)
    (hk : lookupA k env = some v) (hf : falsy v = true) :
    resolveMatch env final st m = resolveMatch (eraseKeyA k env) final st m := by
  cases st with
  | error e => rfl
  | ok sv =>
    by_cases hkey : lookupKey m.2.2 = k
    · simp [resolveMatch, hkey, lookupA_eraseKeyA, hk, hf]
    · simp [resolveMatch, lookupA_eraseKeyA, hkey]

theorem foldl_resolveMatch_erase_falsy (env : Env) (k : Str) (v : Value) (final : Bool)
    (hk : lookupA k env = some v) (hf : falsy v = true) :
    ∀ (ms : List (Nat × Nat × Str)) (st : Except Unit Value),
    ms.foldl (resolveMatch env final) st =
      ms.foldl (resolveMatch (eraseKeyA k env) final) st := by
  intro ms
  induction ms with
  | nil => intro st; rfl
  | cons m rest ih =>
    intro st
    rw [List.foldl_cons, List.foldl_cons,
      resolveMatch_erase_falsy env k v final st m hk hf]
    exact ih _

/--
C10: a name bound to a falsy value (empty string, empty sequence) is
treated by scalar resolution exactly as if it were unbound — resolving any
string against the environment gives the same result as resolving it
against the environment with that binding removed.  In particular, with
`"b"` bound to an empty value, `resolve("a${b}c")` is unchanged under
`final=false` and becomes `"ac"` under `final=true`.
-/
theorem c10_falsy_treated_as_unbound :
    (∀ (env : Env) (k : Str) (v : Value) (final : Bool) (s : Str),
      lookupA k env = some v → falsy v = true →
      resolve env final (.str s) = resolve (eraseKeyA k env) final (.str s)) ∧
    resolve [("b".toList, Value.str [])] false (.str "a${b}c".toList) =
      .ok (.str "a${b}c".toList) ∧
    resolve [("b".toList, Value.list [])] true (.str "a${b}c".toList) =
      .ok (.str "ac".toList) := by
  refine ⟨?_, rfl, rfl⟩
  intro env k v final s hk hf
  show resolveStr env final s = resolveStr (eraseKeyA k env) final s
  exact foldl_resolveMatch_erase_falsy env k v final hk hf _ _

/--
C10 witness: the equivalence instantiated with `"b"` bound to the empty
string.
-/
theorem c10_witness :
    resolve [("b".toList, Value.str [])] false (.str "a${b}c".toList) =
      resolve (eraseKeyA "b".toList [("b".toList, Value.str [])]) false
        (.str "a${b}c".toList) :=
  c10_falsy_treated_as_unbound.1 _ "b".toList (Value.str []) false _ rfl rfl

/-! ## Lemmas about dict insertion and update -/

theorem lookupA_insertA {α : Type} (d : List (Str × α)) (k k2 : Str) (v : α) :
    lookupA k2 (insertA d k v) = if k2 = k then some v else lookupA k2 d := by
  induction d with
  | nil =>
    by_cases h : k2 = k
    · simp [insertA, lookupA, h]
    · simp [insertA, lookupA, h, Ne.symm h]
  | cons kv rest ih =>
    by_cases hk : kv.1 = k
    · rw [show insertA (kv :: rest) k v = (kv.1, v) :: rest by simp [insertA, hk]]
      by_cases h2 : k2 = k
      · simp [lookupA, hk, h2]
      · have hne : kv.1 ≠ k2 := by rw [hk]; exact fun hh => h2 hh.symm
        simp [lookupA, hne, h2]
    · rw [show insertA (kv :: rest) k v = kv :: insertA rest k v by simp [insertA, hk]]
      by_cases hkv : kv.1 = k2
      · have h2 : k2 ≠ k := fun hh => hk (hkv.trans hh)
        simp [lookupA, hkv, h2]
      · simp [lookupA, hkv, ih]

theorem lookupA_cons {α : Type} (k : Str) (kv : Str × α) (rest : List (Str × α)) :
    lookupA k (kv :: rest) = if kv.1 = k then some kv.2 else lookupA k rest := rfl

theorem lookupA_eq_none_iff {α : Type} (k : Str) (d : List (Str × α)) :
    lookupA k d = none ↔ k ∉ d.map Prod.fst := by
  induction d with
  | nil => exact ⟨fun _ => List.not_mem_nil k, fun _ => rfl⟩
  | cons kv rest ih =>
    rw [lookupA_cons, List.map_cons]
    by_cases h : kv.1 = k
    · rw [if_pos h]
      constructor
      · intro hn; exact absurd hn (by exact Option.noConfusion)
      · intro hnm; exact absurd (h ▸ List.mem_cons_self kv.1 (rest.map Prod.fst)) hnm
    · rw [if_neg h, ih]
      constructor
      · intro hn hmem
        rcases List.mem_cons.mp hmem with he | hm
        · exact h he.symm
        · exact hn hm
      · intro hnm hm
        exact hnm (List.mem_cons_of_mem _ hm)

theorem updateA_lookup {α : Type} (nd : List (Str × α)) :
    ∀ (d : List (Str × α)) (k2 : Str), (nd.map Prod.fst).Nodup →
    lookupA k2 (updateA d nd) =
      (match lookupA k2 nd with
       | some v => some v
       | none => lookupA k2 d) := by
  induction nd with
  | nil => intro d k2 _; rfl
  | cons kv rest ih =>
    intro d k2 hnd
    obtain ⟨hnotin, hrest⟩ := List.nodup_cons.mp hnd
    have h1 : updateA d (kv :: rest) = updateA (insertA d kv.1 kv.2) rest := rfl
    rw [h1, ih _ k2 hrest]
    by_cases h : k2 = kv.1
    · subst h
      have hnone : lookupA kv.1 rest = none := (lookupA_eq_none_iff kv.1 rest).mpr hnotin
      rw [hnone]
      simp [lookupA, lookupA_insertA]
    · have hne : kv.1 ≠ k2 := fun hh => h hh.symm
      rw [lookupA_insertA]
      simp only [lookupA, hne, if_neg hne, if_neg h]
      cases lookupA k2 rest <;> rfl

/-! ## C2: merging values into the environment -/

theorem add_values_dict_merge (env : Env) (k : Str) (d nd nd2 : List (Str × Value))
    (hk : lookupA k env = some (.dict d))
    (hr : resolve env false (.dict nd) = .ok (.dict nd2)) :
    add_values env [(k, .dict nd)] = .ok (insertA env k (.dict (updateA d nd2))) := by
  show (match resolve env false (Value.dict nd) with
        | .error e2 => Except.error e2
        | .ok rv =>
          match lookupA k env with
          | some (.dict d) =>
            (match rv with
             | .dict nd3 => .ok (insertA env k (.dict (updateA d nd3)))
             | _ => .error ())
          | _ => .ok (insertA env k rv)) = _
  rw [hr, hk]

theorem add_values_replace (env : Env) (k : Str) (w rv : Value)
    (hk : ∀ d0, lookupA k env ≠ some (.dict d0))
    (hr : resolve env false w = .ok rv) :
    add_values env [(k, w)] = .ok (insertA env k rv) := by
  show (match resolve env false w with
        | .error e2 => Except.error e2
        | .ok rv =>
          match lookupA k env with
          | some (.dict d) =>
            (match rv with
             | .dict nd3 => .ok (insertA env k (.dict (updateA d nd3)))
             | _ => .error ())
          | _ => .ok (insertA env k rv)) = _
  rw [hr]
  cases hl : lookupA k env with
  | none => rfl
  | some v =>
    cases v with
    | str s => rfl
    | list l => rfl
    | dict d0 => exact absurd hl (hk d0)

/--
C2 counterexample: the merge performed by `add_values` is not recursive at
every nesting depth.  Storing `k = {"a": {"x": "1"}}` and then merging
`{"k": {"a": {"y": "2"}}}` overwrites the mapping at `"a"` wholesale: the
depth-two key `"x"` is no longer present afterwards.
-/
theorem c2_recursive_merge_counterexample :
    add_values []
        [("k".toList, Value.dict [("a".toList,
            Value.dict [("x".toList, Value.str "1".toList)])])] =
      .ok [("k".toList, Value.dict [("a".toList,
            Value.dict [("x".toList, Value.str "1".toList)])])] ∧
    add_values [("k".toList, Value.dict [("a".toList,
            Value.dict [("x".toList, Value.str "1".toList)])])]
        [("k".toList, Value.dict [("a".toList,
            Value.dict [("y".toList, Value.str "2".toList)])])] =
      .ok [("k".toList, Value.dict [("a".toList,
            Value.dict [("y".toList, Value.str "2".toList)])])] ∧
    lookupA "x".toList [("y".toList, Value.str "2".toList)] = none :=
  ⟨rfl, rfl, rfl⟩

/--
C2 (amended): merging an entry whose key is bound to a mapping and whose
resolved value is a mapping performs a one-level `dict.update` merge:
every pre-existing top-level key of the stored mapping remains present
(bound to the incoming value when the incoming mapping also carries the
key, to its old value otherwise) and new top-level keys are added — but
mapping-valued keys present on both sides are overwritten wholesale, not
merged recursively.  Merging into a key bound to a non-mapping value (or
into an unbound key) reassigns the key to the resolved incoming value.
Concretely, merging `{"k": {"a": "1"}}` then `{"k": {"b": "2"}}` into an
empty environment leaves `k` bound to a mapping carrying both keys.
-/
theorem c2_one_level_merge :
    (∀ (env : Env) (k : Str) (d nd nd2 : List (Str × Value)),
      lookupA k env = some (.dict d) →
      resolve env false (.dict nd) = .ok (.dict nd2) →
      add_values env [(k, .dict nd)] = .ok (insertA env k (.dict (updateA d nd2)))) ∧
    (∀ (d nd : List (Str × Value)) (k2 : Str) (v : Value),
      (nd.map Prod.fst).Nodup →
      lookupA k2 nd = some v → lookupA k2 (updateA d nd) = some v) ∧
    (∀ (d nd : List (Str × Value)) (k2 : Str),
      (nd.map Prod.fst).Nodup →
      lookupA k2 nd = none → lookupA k2 (updateA d nd) = lookupA k2 d) ∧
    (∀ (env : Env) (k : Str) (w rv : Value),
      (∀ d0, lookupA k env ≠ some (.dict d0)) →
      resolve env false w = .ok rv →
      add_values env [(k, w)] = .ok (insertA env k rv)) ∧
    add_values [] [("k".toList, .dict [("a".toList, .str "1".toList)])] =
      .ok [("k".toList, Value.dict [("a".toList, .str "1".toList)])] ∧
    add_values [("k".toList, Value.dict [("a".toList, .str "1".toList)])]
        [("k".toList, .dict [("b".toList, .str "2".toList)])] =
      .ok [("k".toList, Value.dict [("a".toList, .str "1".toList),
                                    ("b".toList, .str "2".toList)])] := by
  refine ⟨add_values_dict_merge, ?_, ?_, add_values_replace, rfl, rfl⟩
  · intro d nd k2 v hnd hsome
    rw [updateA_lookup nd d k2 hnd, hsome]
  · intro d nd k2 hnd hnone
    rw [updateA_lookup nd d k2 hnd, hnone]

/--
C2 witness: the one-level merge law instantiated at the spec's example,
merging `{"k": {"b": "2"}}` into a store where `k` holds `{"a": "1"}`.
-/
theorem c2_witness :
    add_values [("k".toList, Value.dict [("a".toList, Value.str "1".toList)])]
        [("k".toList, .dict [("b".toList, Value.str "2".toList)])] =
      .ok (insertA [("k".toList, Value.dict [("a".toList, Value.str "1".toList)])]
        "k".toList
        (.dict (updateA [("a".toList, Value.str "1".toList)]
          [("b".toList, Value.str "2".toList)]))) :=
  c2_one_level_merge.1
    [("k".toList, Value.dict [("a".toList, Value.str "1".toList)])]
    "k".toList
    [("a".toList, Value.str "1".toList)]
    [("b".toList, Value.str "2".toList)]
    [("b".toList, Value.str "2".toList)]
    rfl rfl

/-! ## C6: the soft-reference marker -/

theorem takeWhile_append_of_forall {p : Char → Bool} {x : Str} (y : Str)
    (h : ∀ c ∈ x, p c = true) :
    (x ++ y).takeWhile p = x ++ y.takeWhile p := by
  induction x with
  | nil => rfl
  | cons c rest ih =>
    have hc : p c = true := h c (by simp)
    simp only [List.cons_append, List.takeWhile_cons, hc, if_true]
    rw [ih (fun c2 h2 => h c2 (by simp [h2]))]

theorem tryMatchAt_none_of_ne_dollar {c : Char} (rest : Str) (h : c ≠ '$') :
    tryMatchAt (c :: rest) = none := by
  cases rest with
  | nil => rfl
  | cons c2 rest2 => simp [tryMatchAt, h]

theorem scanAux_eq_nil_of_no_dollar (s : Str) :
    ∀ i : Nat, (∀ c ∈ s, c ≠ '$') → scanAux s i = [] := by
  induction s with
  | nil => intro i _; rfl
  | cons c rest ih =>
    intro i h
    show (match tryMatchAt (c :: rest) with
          | some g => (i, i + g.length + 3, g) :: scanAux rest (i + 1)
          | none => scanAux rest (i + 1)) = []
    rw [tryMatchAt_none_of_ne_dollar rest (h c (by simp))]
    exact ih (i + 1) (fun c2 h2 => h c2 (by simp [h2]))

theorem ne_dollar_of_not_special {c : Char} (h : isSpecial c = false) : c ≠ '$' := by
  intro hc
  subst hc
  simp [isSpecial] at h

theorem scan_wrap (x : Str) (hx : ∀ c ∈ x, isSpecial c = false) :
    findMatches ('$' :: '{' :: (x ++ ['}'])) = [(0, x.length + 3, x)] := by
  have hg : (x ++ ['}']).takeWhile (fun c => !isSpecial c) = x := by
    rw [takeWhile_append_of_forall _ (fun c hc => by simp [hx c hc])]
    simp [List.takeWhile_cons, isSpecial]
  have htm : tryMatchAt ('$' :: '{' :: (x ++ ['}'])) = some x := by
    simp only [tryMatchAt, hg, eq_self_iff_true, if_true, List.drop_left]
  have hnd : scanAux ('{' :: (x ++ ['}'])) 1 = [] := by
    apply scanAux_eq_nil_of_no_dollar
    intro c hc
    rcases List.mem_cons.mp hc with he | hm
    · subst he; decide
    · rcases List.mem_append.mp hm with hmx | hme
      · exact ne_dollar_of_not_special (hx c hmx)
      · rcases List.mem_singleton.mp hme with rfl; decide
  show (match tryMatchAt ('$' :: '{' :: (x ++ ['}'])) with
        | some g => (0, 0 + g.length + 3, g) :: scanAux ('{' :: (x ++ ['}'])) 1
        | none => scanAux ('{' :: (x ++ ['}'])) 1) = [(0, x.length + 3, x)]
  rw [htm, hnd]
  simp

theorem filter_ne_q {x : Str} (h : ∀ c ∈ x, c ≠ '?') :
    x.filter (fun c => c != '?') = x :=
  List.filter_eq_self.mpr (fun c hc => by simp [h c hc])

theorem drop_full_of_length {s : Str} {n : Nat} (h : s.length = n) : s.drop n = [] := by
  rw [← h]
  exact List.drop_length s

/--
C6 counterexample: the lookup key of a placeholder is not obtained by
stripping only a trailing `?`.  With `"ab"` bound to `"V"`, the
placeholder `${a?b}` — whose name `"a?b"` carries no trailing marker and
is itself unbound — is nevertheless substituted by `"V"`, because the code
removes every question mark from the name before the lookup.
-/
theorem c6_counterexample :
    resolve [("ab".toList, Value.str "V".toList)] false (.str "${a?b}".toList) =
      .ok (.str "V".toList) ∧
    "V".toList ≠ "${a?b}".toList := by
  refine ⟨rfl, ?_⟩
  decide

/--
C6 (amended): the lookup key for `${name}` is obtained from `name` by
removing every `?` character, not only a trailing one.  Consequently, for
a name `x` free of `$`, `\x7b`, `\x7d` and `?` that is bound to a
non-empty scalar string, `${x?}` and `${x}` resolve to exactly the same
result under either final mode.
-/
theorem c6_soft_marker (env : Env) (x w : Str) (final : Bool)
    (hx : ∀ c ∈ x, isSpecial c = false)
    (hq : ∀ c ∈ x, c ≠ '?')
    (hl : lookupA x env = some (.str w))
    (hw : w ≠ []) :
    resolve env final (.str ('$' :: '{' :: (x ++ ['?', '}']))) = .ok (.str w) ∧
    resolve env final (.str ('$' :: '{' :: (x ++ ['}']))) = .ok (.str w) := by
  have hfalsy : falsy (Value.str w) = false := by
    cases w with
    | nil => exact absurd rfl hw
    | cons c cs => rfl
  constructor
  · show resolveStr env final ('$' :: '{' :: (x ++ ['?', '}'])) = _
    unfold resolveStr
    have hx2 : ∀ c ∈ x ++ ['?'], isSpecial c = false := by
      intro c hc
      rcases List.mem_append.mp hc with hmx | hme
      · exact hx c hmx
      · rcases List.mem_singleton.mp hme with rfl; decide
    have hassoc : x ++ ['?', '}'] = (x ++ ['?']) ++ ['}'] := by simp
    rw [hassoc, scan_wrap (x ++ ['?']) hx2]
    have hkey : lookupKey (x ++ ['?']) = x := by
      show (x ++ ['?']).filter (fun c => c != '?') = x
      rw [List.filter_append, filter_ne_q hq]
      simp
    show resolveMatch env final (.ok (.str ('$' :: '{' :: ((x ++ ['?']) ++ ['}']))))
        (0, (x ++ ['?']).length + 3, x ++ ['?']) = _
    simp only [resolveMatch, hkey, hl, hfalsy, if_false]
    show Except.ok (Value.str (splice ('$' :: '{' :: ((x ++ ['?']) ++ ['}']))
        0 ((x ++ ['?']).length + 3) w)) = _
    unfold splice
    rw [drop_full_of_length (by simp)]
    simp
  · show resolveStr env final ('$' :: '{' :: (x ++ ['}'])) = _
    unfold resolveStr
    rw [scan_wrap x hx]
    have hkey : lookupKey x = x := filter_ne_q hq
    show resolveMatch env final (.ok (.str ('$' :: '{' :: (x ++ ['}']))))
        (0, x.length + 3, x) = _
    simp only [resolveMatch, hkey, hl, hfalsy, if_false]
    show Except.ok (Value.str (splice ('$' :: '{' :: (x ++ ['}']))
        0 (x.length + 3) w)) = _
    unfold splice
    rw [drop_full_of_length (by simp)]
    simp

/--
C6 witness: with `"a"` bound to `"V"`, both `${a?}` and `${a}` resolve to
`"V"`.
-/
theorem c6_witness :
    resolve [("a".toList, Value.str "V".toList)] false (.str "${a?}".toList) =
      .ok (.str "V".toList) ∧
    resolve [("a".toList, Value.str "V".toList)] false (.str "${a}".toList) =
      .ok (.str "V".toList) :=
  ⟨(c6_soft_marker [("a".toList, Value.str "V".toList)] "a".toList "V".toList false
      (by decide) (by decide) rfl (by decide)).1,
   (c6_soft_marker [("a".toList, Value.str "V".toList)] "a".toList "V".toList false
      (by decide) (by decide) rfl (by decide)).2⟩

/-! ## C5: the final flag is dropped on recursion into sequences -/

/--
C5 (behaviour at the failing input): the list branch of `resolve` calls
`self.resolve` through `map` with a single argument, so the elements of a
sequence are resolved with the default `final=False` even when the outer
call passed `final=True`.  Resolving the one-element list
`["a${b}c"]` in an empty environment with `final=true` leaves the unbound
placeholder intact, while resolving the scalar `"a${b}c"` with
`final=true` erases it — contradicting the documented contract that
`final=True` resolves any unknown variable into the empty string.
-/
theorem c5_final_not_propagated :
    resolve [] true (.list [.str "a${b}c".toList]) =
      .ok (.list [.str "a${b}c".toList]) ∧
    resolve [] true (.str "a${b}c".toList) = .ok (.str "ac".toList) :=
  ⟨rfl, rfl⟩

/-! ## C7: the process execution wrapper -/

/--
C7: `sub` returns the captured standard output if and only if the child
exited with code zero.  On a non-zero exit code it returns nothing, exits
with the child's code, prints first an error line naming the command
(`args[0]`), prints the captured standard output exactly when the
`print_stdout_on_fail` flag is set, and always prints the captured
standard error.
-/
theorem c7_sub (args : List Str) (psf : Bool) (out : CompletedProcess) :
    ((sub args psf out).returned = some out.stdout ↔ out.returncode = 0) ∧
    (out.returncode = 0 →
      (sub args psf out).exited = none ∧ (sub args psf out).printed = []) ∧
    (out.returncode ≠ 0 →
      (sub args psf out).returned = none ∧
      (sub args psf out).exited = some out.returncode ∧
      (sub args psf out).printed.head? =
        some ("[ERROR]: ".toList ++ args.headD [] ++ " non-zero return code.\n".toList) ∧
      (psf = true →
        ("stdout:\n".toList ++ out.stdout ++ "\n\n".toList) ∈ (sub args psf out).printed) ∧
      (psf = false →
        (sub args psf out).printed =
          ["[ERROR]: ".toList ++ args.headD [] ++ " non-zero return code.\n".toList,
           "stderr:\n".toList ++ out.stderr ++ "\n\n".toList]) ∧
      ("stderr:\n".toList ++ out.stderr ++ "\n\n".toList) ∈ (sub args psf out).printed) := by
  by_cases h : out.returncode = 0
  · refine ⟨?_, fun _ => ?_, fun hne => absurd h hne⟩
    · simp [sub, h]
    · simp [sub, h]
  · refine ⟨?_, fun he => absurd he h, fun _ => ?_⟩
    · simp [sub, h]
    · cases psf <;> simp [sub, h]

/--
C7 witness: a yosys invocation failing with exit code 2 returns nothing
and exits with code 2; a successful one returns its captured stdout.
-/
theorem c7_witness :
    (sub ["yosys".toList] false ⟨2, "o".toList, "e".toList⟩).returned = none ∧
    (sub ["yosys".toList] false ⟨2, "o".toList, "e".toList⟩).exited = some 2 ∧
    (sub ["yosys".toList] true ⟨0, "o".toList, "e".toList⟩).returned =
      some "o".toList := by
  refine ⟨?_, ?_, ?_⟩
  · exact ((c7_sub ["yosys".toList] false ⟨2, "o".toList, "e".toList⟩).2.2
      (by decide)).1
  · exact ((c7_sub ["yosys".toList] false ⟨2, "o".toList, "e".toList⟩).2.2
      (by decide)).2.1
  · exact ((c7_sub ["yosys".toList] true ⟨0, "o".toList, "e".toList⟩).1).mpr rfl

/-! ## C9: default-constructed environments share one store -/

/--
C9: two `ResolutionEnv` instances constructed without an explicit initial
mapping hold the same reference (Python's mutable default argument is
allocated once), so after `add_values` through the first instance's
reference, `resolve` through the second, separately constructed instance's
reference observes the new binding.
-/
theorem c9_shared_default_store :
    (renvInit initialHeap none).1 = (renvInit (renvInit initialHeap none).2 none).1 ∧
    renvAddValues (renvInit (renvInit initialHeap none).2 none).2
        (renvInit initialHeap none).1 [("x".toList, Value.str "V".toList)] =
      .ok [[("x".toList, Value.str "V".toList)]] ∧
    renvResolve [[("x".toList, Value.str "V".toList)]]
        (renvInit (renvInit initialHeap none).2 none).1 false
        (.str "${x}".toList) =
      .ok (.str "V".toList) :=
  ⟨rfl, rfl, rfl⟩

/-! ## C8: extra products of the yosys module -/

/--
C8 (behaviour at the failing input): an extra product declared with the
optional `?` qualifier makes `map_io` raise — but what escapes is a
`NameError` for the identifier `ModuleRuntimeException`, which yosys.py
never imports, not a configuration error naming the offending product.
An extra product with the required qualifier is mapped, without error, to
the device-prefixed path `str(top.parent / f"{device}_{name}.{name}")`
appended after the four fixed products.
-/
theorem c8_extra_product_qualifiers :
    map_io ⟨some "build".toList, "top".toList, "dev".toList⟩ ["clk?".toList] =
      .error (.nameError "ModuleRuntimeException") ∧
    map_io ⟨some "build".toList, "top".toList, "dev".toList⟩ ["clk".toList] =
      .ok [("eblif".toList, "build/top.eblif".toList),
           ("fasm_extra".toList, "build/top_fasm_extra.fasm".toList),
           ("json".toList, "build/top.json".toList),
           ("synth_json".toList, "build/top_io.json".toList),
           ("clk".toList, "build/dev_clk.clk".toList)] :=
  ⟨rfl, rfl⟩

end F4PGA
